import Mathlib

/-!
Shallow embedding of the download-job controller of the youtube-download-webui
repository.

The embedded code:
* `app/routers/downloads.py` — the router registered by `app/main.py`:
  `_is_playlist_url`, `_validate_url`, `_validate_download_type`,
  `create_download`, `retry_download`, and the background worker
  `_run_download_task` (its progress hook `_hook` included), serialized by the
  module-level `_DOWNLOAD_LOCK`.
* `app/routers/utils.py` — an alternate revision of the same worker that
  additionally parses a free-form `yt_dlp_params` overlay string and whose
  finished-hook / finalize writes differ; it is embedded separately.
* The Python standard-library collaborators `urllib.parse.urlparse`,
  `urllib.parse.parse_qs` and `shlex.split` are external to the repository;
  `urlparse`/`parse_qsl` are modelled here after CPython's implementation for
  the component accesses the router performs (scheme, netloc, path, query),
  while the tokenization outcome of `shlex.split` is an oracle input of the
  utils-revision run model.

Database rows are modelled as explicit record states; every committed UPDATE
performed by a run is one element of the run's `writes` trace, in program
order.  Timestamps (`created_at`, `updated_at`) are not modelled.  Engine
invocations (probe, best-effort unlink of an existing file, transfer) are
recorded in an `actions` list.  The process-wide execution lock is modelled as
an interleaving transition system over an abstract store of per-job statuses.
-/

namespace YtWebui

/-- Python truthiness of an optional string: `None` and `""` are falsy. -/
def truthyStr : Option String → Bool
  | none => false
  | some s => s != ""

/-- Python `a or b` on optional strings (`None` and `""` falsy). -/
def pyOrStr (a b : Option String) : Option String :=
  if truthyStr a then a else b

/-- Python truthiness of an optional byte count: `None` and `0` are falsy. -/
def truthyNat : Option Nat → Bool
  | none => false
  | some n => n != 0

/-- Python `a or b or 0` as used for `total_bytes or total_bytes_estimate or 0`. -/
def orTotal (a b : Option Nat) : Nat :=
  if truthyNat a then a.getD 0 else if truthyNat b then b.getD 0 else 0

/-- Python `x or 0` on an optional byte count. -/
def orZero (a : Option Nat) : Nat := a.getD 0

/-- Characters CPython's urllib accepts inside a URL scheme. -/
def schemeChar (c : Char) : Bool :=
  c.isAlpha || c.isDigit || c == '+' || c == '-' || c == '.'

/-- Leading C0-control/space stripping performed by CPython's urlsplit. -/
def stripLead (l : List Char) : List Char :=
  l.dropWhile (fun c => decide (c.toNat ≤ 32))

/-- Removal of the unsafe bytes tab/CR/LF performed by CPython's urlsplit. -/
def removeUnsafe (l : List Char) : List Char :=
  l.filter (fun c => !(c == '\t' || c == '\r' || c == '\n'))

/-- The components of a parsed URL that the router reads. -/
structure UrlParts where
  scheme : String
  netloc : String
  path : String
  query : String
deriving DecidableEq

/-- CPython urllib _splitparams, applied by urlparse: the `;params` suffix of
the last path segment is split off the path. -/
def splitParamsPath (p : List Char) : List Char :=
  if p.contains ';' then
    if p.contains '/' then
      let lastSeg := (p.reverse.takeWhile (fun c => c != '/')).reverse
      if lastSeg.contains ';' then
        p.take (p.length - lastSeg.length) ++ lastSeg.takeWhile (fun c => c != ';')
      else p
    else p.takeWhile (fun c => c != ';')
  else p

/-- CPython urllib.parse.urlparse restricted to the components the router
reads: leading control characters stripped, tab/CR/LF removed, a valid scheme
lowercased, the netloc taken after `//` up to the next `/`, `?` or `#`, the
fragment discarded, the query split at the first `?`, and path params split
off.  Percent-decoding of the query happens later, in `parseQsl`. -/
def pyUrlparse (url : String) : UrlParts :=
  let l := removeUnsafe (stripLead url.data)
  let pre := l.takeWhile (fun c => c != ':')
  let sr :=
    if pre.length < l.length && !pre.isEmpty && pre.all schemeChar then
      (pre.map Char.toLower, l.drop (pre.length + 1))
    else (([] : List Char), l)
  let nr :=
    match sr.2 with
    | '/' :: '/' :: t =>
      let n := t.takeWhile (fun c => !(c == '/' || c == '?' || c == '#'))
      (n, t.drop n.length)
    | r => (([] : List Char), r)
  let noFrag := nr.2.takeWhile (fun c => c != '#')
  let path := noFrag.takeWhile (fun c => c != '?')
  let query := if path.length < noFrag.length then noFrag.drop (path.length + 1) else []
  ⟨sr.1.asString, nr.1.asString, (splitParamsPath path).asString, query.asString⟩

/-- Python `str.split(sep)` (no maxsplit) on character lists. -/
def splitOnCharL (sep : Char) : List Char → List (List Char)
  | [] => [[]]
  | c :: rest =>
    let r := splitOnCharL sep rest
    if c == sep then [] :: r
    else
      match r with
      | h :: t => (c :: h) :: t
      | [] => [[c]]

/-- Value of a hexadecimal digit. -/
def hexVal (c : Char) : Option Nat :=
  if c.isDigit then some (c.toNat - 48)
  else if 'a' ≤ c ∧ c ≤ 'f' then some (c.toNat - 87)
  else if 'A' ≤ c ∧ c ≤ 'F' then some (c.toNat - 55)
  else none

/-- Percent-decoding as done by urllib.parse.unquote for single-byte escapes;
an invalid escape is kept literally. -/
def pctDecode : List Char → List Char
  | '%' :: a :: b :: rest =>
    match hexVal a, hexVal b with
    | some x, some y => Char.ofNat (16 * x + y) :: pctDecode rest
    | _, _ => '%' :: pctDecode (a :: b :: rest)
  | c :: rest => c :: pctDecode rest
  | [] => []

/-- urllib.parse.unquote_plus: `+` becomes a space, then percent-decoding. -/
def unquotePlusL (l : List Char) : String :=
  (pctDecode (l.map (fun c => if c == '+' then ' ' else c))).asString

/-- One `name=value` token of urllib.parse.parse_qsl with default arguments
(keep_blank_values=False): empty tokens, tokens without `=`, and tokens whose
raw value is empty are dropped before any decoding. -/
def decodePairL (t : List Char) : Option (String × String) :=
  if t.isEmpty then none
  else
    let n := t.takeWhile (fun c => c != '=')
    if n.length == t.length then none
    else
      let v := t.drop (n.length + 1)
      if v.isEmpty then none
      else some (unquotePlusL n, unquotePlusL v)

/-- urllib.parse.parse_qsl with default arguments, splitting on `&`. -/
def parseQsl (q : String) : List (String × String) :=
  (splitOnCharL '&' q.data).filterMap decodePairL

/-- `startsWithL pat l` is true when `pat` is a prefix of `l`. -/
def startsWithL : List Char → List Char → Bool
  | [], _ => true
  | _ :: _, [] => false
  | a :: as, b :: bs => a == b && startsWithL as bs

/-- Python substring containment (`pat in s`) on character lists. -/
def containsSubL (pat : List Char) : List Char → Bool
  | [] => pat.isEmpty
  | c :: rest => startsWithL pat (c :: rest) || containsSubL pat rest

/-- Python substring containment (`pat in s`). -/
def containsSub (s pat : String) : Bool := containsSubL pat.data s.data

/-- downloads.py `_is_playlist_url`.  `parse_qs` groups the `parse_qsl` pairs
by key into non-empty lists, so the source's `"list" in qs and qs["list"]` is
exactly: some `parse_qsl` pair is named `"list"`. -/
def isPlaylistUrl (url : String) : Bool :=
  let parsed := pyUrlparse url
  if (parseQsl parsed.query).any (fun pr => pr.1 == "list") then true
  else if parsed.path != "" && containsSub parsed.path "playlist" then true
  else false

/-- An HTTPException raised to the submitter, as status code plus detail. -/
structure HttpErr where
  code : Nat
  detail : String
deriving DecidableEq

/-- downloads.py `_validate_url`, returning the would-be HTTPException instead
of raising it. -/
def validateUrlErr (url : String) : Option HttpErr :=
  let parsed := pyUrlparse url
  if ¬(parsed.scheme = "http" ∨ parsed.scheme = "https") ∨ parsed.netloc = "" then
    some ⟨422, "URLが不正です。http(s):// で始まる有効なURLを指定してください。"⟩
  else if isPlaylistUrl url then
    some ⟨400, "プレイリストURLは未対応です。"⟩
  else none

/-- downloads.py `_validate_download_type`. -/
def validateTypeErr (d : String) : Option HttpErr :=
  if d = "video" ∨ d = "audio" then none
  else some ⟨422, "download_type は 'video' または 'audio' を指定してください。"⟩

/-- The status enum of the downloads table. -/
inductive Status
  | queued
  | downloading
  | completed
  | error
  | canceled
deriving DecidableEq

/-- One row of the downloads table as the endpoints see it (timestamps are not
modelled). -/
structure JobRow where
  id : Nat
  url : String
  download_type : String
  title : Option String
  status : Status
  file_size : Nat
  progress : Nat
  file_path : Option String
  error_message : Option String
deriving DecidableEq

/-- The downloads table: its rows and the AUTOINCREMENT counter. -/
structure Store where
  rows : List JobRow
  nextId : Nat
deriving DecidableEq

/-- A queued invocation of the background task `_run_download_task`. -/
structure TaskCall where
  id : Nat
  url : String
  download_type : String
  force : Bool
deriving DecidableEq

/-- SELECT of a row by id. -/
def findRow (s : Store) (i : Nat) : Option JobRow :=
  s.rows.find? (fun r => r.id == i)

/-- The field reset performed by retry_download before re-enqueueing. -/
def resetRow (r : JobRow) : JobRow :=
  {r with status := Status.queued, progress := 0, file_size := 0,
          file_path := none, error_message := none, title := none}

/-- downloads.py `retry_download`: 404 when the id is unknown, 409 (row
untouched) while downloading, otherwise the synchronous reset followed by
enqueueing the run with force_redownload=True. -/
def retryDownload (s : Store) (i : Nat) : Except HttpErr JobRow × Store × Option TaskCall :=
  match findRow s i with
  | none => (Except.error ⟨404, "Not found"⟩, s, none)
  | some row =>
    if row.status = Status.downloading then
      (Except.error ⟨409, "ダウンロード中は再試行できません。"⟩, s, none)
    else
      let s2 : Store := ⟨s.rows.map (fun r => if r.id == i then resetRow r else r), s.nextId⟩
      (Except.ok (resetRow row), s2, some ⟨i, row.url, row.download_type, true⟩)

/-- downloads.py `create_download`: payload presence checks, URL and type
validation, INSERT of a queued row, and enqueueing of the run (its
force_redownload defaults to False). -/
def createDownload (url0 dtype0 : Option String) (s : Store) :
    Except HttpErr JobRow × Store × Option TaskCall :=
  match url0 with
  | none => (Except.error ⟨422, "url は必須です。"⟩, s, none)
  | some u =>
    if u = "" then (Except.error ⟨422, "url は必須です。"⟩, s, none)
    else
      match dtype0 with
      | none => (Except.error ⟨422, "download_type は必須です。"⟩, s, none)
      | some d =>
        if d = "" then (Except.error ⟨422, "download_type は必須です。"⟩, s, none)
        else
          match validateUrlErr u with
          | some e => (Except.error e, s, none)
          | none =>
            match validateTypeErr d with
            | some e => (Except.error e, s, none)
            | none =>
              let newRow : JobRow := ⟨s.nextId, u, d, none, Status.queued, 0, 0, none, none⟩
              (Except.ok newRow, ⟨s.rows ++ [newRow], s.nextId + 1⟩,
                some ⟨s.nextId, u, d, false⟩)

/-- A row of the downloads table as the worker mutates it (id, url and type
are immutable and kept outside). -/
structure Row where
  status : Status
  progress : Nat
  file_size : Nat
  file_path : Option String
  error_message : Option String
  title : Option String
deriving DecidableEq

/-- The row a submission or a retry leaves behind for the worker. -/
def freshRow : Row := ⟨Status.queued, 0, 0, none, none, none⟩

/-- One progress-hook callback from the engine: the dict fields `_hook`
reads.  A `status` other than `downloading`/`finished` is `other`. -/
inductive HookEvent
  | progress (total_bytes total_bytes_estimate downloaded_bytes : Option Nat)
      (filename : Option String)
  | finished (filename : Option String)
  | other
deriving DecidableEq

/-- True exactly on `finished` events. -/
def isFinishedEv : HookEvent → Bool
  | HookEvent.finished _ => true
  | _ => false

/-- What the probe (`extract_info(url, download=False)` plus
`prepare_filename`) yields. -/
structure ProbeInfo where
  title : Option String
  expectedPath : String
deriving DecidableEq

/-- Python `msg[:500]` guarded by `len(msg) > 500`. -/
def truncate500 (s : String) : String :=
  if s.length > 500 then ⟨s.data.take 500⟩ else s

/-- The UPDATE at run start: status downloading, progress 0, error cleared. -/
def startRow (r : Row) : Row :=
  {r with status := Status.downloading, progress := 0, error_message := none}

/-- The UPDATE of the top-level exception handler. -/
def errorRow (r : Row) (msg : String) : Row :=
  {r with status := Status.error, error_message := some (truncate500 msg)}

/-- The title UPDATE after a successful probe (only when the title is truthy). -/
def titleRow (info : ProbeInfo) (r : Row) : Row :=
  if truthyStr info.title then {r with title := info.title} else r

/-- `_hook` of downloads.py acting on (current row, last_filename):
the optional committed write, the row after, and last_filename after. -/
def hookStepDL (gs : String → Option Nat) (st : Row × Option String) (e : HookEvent) :
    Option Row × Row × Option String :=
  match e with
  | HookEvent.progress tb tbe db f =>
    let total := orTotal tb tbe
    let downloaded := orZero db
    let prog := if total ≠ 0 then max 0 (min 100 (downloaded * 100 / total)) else 0
    let fEff := pyOrStr f st.2
    let fn2 := if truthyStr fEff then fEff else st.2
    let w : Row := {st.1 with progress := prog, file_size := total}
    (some w, w, fn2)
  | HookEvent.finished f =>
    let fEff := pyOrStr f st.2
    if truthyStr fEff then
      let size := (gs (fEff.getD "")).getD 0
      let w : Row := {st.1 with file_path := fEff, file_size := size, progress := 100}
      (some w, w, fEff)
    else (none, st.1, st.2)
  | HookEvent.other => (none, st.1, st.2)

/-- Deliver a list of hook events through `hookStepDL`, collecting the
committed writes in order. -/
def foldHooksDL (gs : String → Option Nat) :
    List HookEvent → Row → Option String → List Row × Row × Option String
  | [], r, fn => ([], r, fn)
  | e :: es, r, fn =>
    let s := hookStepDL gs (r, fn) e
    let o := foldHooksDL gs es s.2.1 s.2.2
    (s.1.toList ++ o.1, o.2)

/-- `_hook` of utils.py: identical on `downloading` events; on `finished` it
updates only file_size and progress (the final path is written later from
expected_path), while still tracking last_filename. -/
def hookStepU (gs : String → Option Nat) (st : Row × Option String) (e : HookEvent) :
    Option Row × Row × Option String :=
  match e with
  | HookEvent.progress tb tbe db f =>
    let total := orTotal tb tbe
    let downloaded := orZero db
    let prog := if total ≠ 0 then max 0 (min 100 (downloaded * 100 / total)) else 0
    let fEff := pyOrStr f st.2
    let fn2 := if truthyStr fEff then fEff else st.2
    let w : Row := {st.1 with progress := prog, file_size := total}
    (some w, w, fn2)
  | HookEvent.finished f =>
    let fEff := pyOrStr f st.2
    if truthyStr fEff then
      let size := (gs (fEff.getD "")).getD 0
      let w : Row := {st.1 with file_size := size, progress := 100}
      (some w, w, fEff)
    else (none, st.1, st.2)
  | HookEvent.other => (none, st.1, st.2)

/-- Deliver a list of hook events through `hookStepU`. -/
def foldHooksU (gs : String → Option Nat) :
    List HookEvent → Row → Option String → List Row × Row × Option String
  | [], r, fn => ([], r, fn)
  | e :: es, r, fn =>
    let s := hookStepU gs (r, fn) e
    let o := foldHooksU gs es s.2.1 s.2.2
    (s.1.toList ++ o.1, o.2)

/-- Engine/filesystem invocations a run performs, in order. -/
inductive Action
  | probe
  | unlink (path : String)
  | transfer
deriving DecidableEq

/-- A run's observable outcome: the committed row states in program order and
the engine/filesystem actions in order. -/
structure RunOut where
  writes : List Row
  actions : List Action
deriving DecidableEq

/-- One run of downloads.py `_run_download_task`, given the engine's and the
filesystem's behaviour: whether the probe raises or yields (title, expected
path), whether the expected file exists and its stat size (`none` = OSError,
substituted by 0), whether the best-effort unlink fails, the hook events the
transfer delivers, whether the transfer then raises, and `os.path.getsize` as
an oracle (`none` = OSError, substituted by 0). -/
structure RunCfg where
  force : Bool
  probe : Except String ProbeInfo
  existsExpected : Bool
  statExpected : Option Nat
  unlinkFails : Bool
  events : List HookEvent
  transferRaise : Option String
  getsize : String → Option Nat

/-- downloads.py `_run_download_task` body (inside the lock), as the list of
committed writes and engine actions.  The finalize uses `last_filename` when
truthy, falling back to the probe-time expected path. -/
def runDL (cfg : RunCfg) (r0 : Row) : RunOut :=
  let w1 := startRow r0
  match cfg.probe with
  | Except.error msg => ⟨[w1, errorRow w1 msg], [Action.probe]⟩
  | Except.ok info =>
    let r2 := titleRow info w1
    let tws := if truthyStr info.title then [r2] else []
    if cfg.existsExpected && !cfg.force then
      let wc : Row := { r2 with
        status := Status.completed
        file_path := some info.expectedPath
        file_size := cfg.statExpected.getD 0
        progress := 100 }
      ⟨w1 :: (tws ++ [wc]), [Action.probe]⟩
    else
      let acts := if cfg.existsExpected then
          [Action.probe, Action.unlink info.expectedPath, Action.transfer]
        else [Action.probe, Action.transfer]
      let h := foldHooksDL cfg.getsize cfg.events r2 none
      match cfg.transferRaise with
      | some msg => ⟨w1 :: (tws ++ (h.1 ++ [errorRow h.2.1 msg])), acts⟩
      | none =>
        let pathStr :=
          match h.2.2 with
          | some f => if f ≠ "" then f else info.expectedPath
          | none => info.expectedPath
        let wF : Row := { h.2.1 with
          status := Status.completed
          file_path := some pathStr
          file_size := (cfg.getsize pathStr).getD 0
          progress := 100 }
        ⟨w1 :: (tws ++ (h.1 ++ [wF])), acts⟩

/-- The row state after the last hook write of a downloads.py run (the "last
reported" progress/size/path before finalize or the error write). -/
def lastReportedDL (cfg : RunCfg) (info : ProbeInfo) (r0 : Row) : Row :=
  (foldHooksDL cfg.getsize cfg.events (titleRow info (startRow r0)) none).2.1

/-- Behaviour of utils.py `_run_download_task`: like `RunCfg` plus the
`yt_dlp_params` overlay string and the outcome of `shlex.split` on it (the
tokenizer is an external stdlib collaborator, so its outcome is an oracle). -/
structure UtilsCfg where
  force : Bool
  ytDlpParams : Option String
  tokenize : Except String (List String)
  probe : Except String ProbeInfo
  existsExpected : Bool
  statExpected : Option Nat
  events : List HookEvent
  transferRaise : Option String
  getsize : String → Option Nat

/-- str(HTTPException(422, detail)) as produced when utils.py's overlay parse
fails: Starlette renders it as "status_code: detail". -/
def parseErrDetail (e : String) : String :=
  "422: 追加パラメータの解析に失敗しました: " ++ e

/-- The engine part of utils.py `_run_download_task` (probe onwards): like the
downloads.py revision, except that the finished hook writes no file_path and
the finalize always writes the probe-time expected path. -/
def runUEngine (cfg : UtilsCfg) (w1 : Row) : RunOut :=
  match cfg.probe with
  | Except.error msg => ⟨[w1, errorRow w1 msg], [Action.probe]⟩
  | Except.ok info =>
    let r2 := titleRow info w1
    let tws := if truthyStr info.title then [r2] else []
    if cfg.existsExpected && !cfg.force then
      let wc : Row := { r2 with
        status := Status.completed
        file_path := some info.expectedPath
        file_size := cfg.statExpected.getD 0
        progress := 100 }
      ⟨w1 :: (tws ++ [wc]), [Action.probe]⟩
    else
      let acts := if cfg.existsExpected then
          [Action.probe, Action.unlink info.expectedPath, Action.transfer]
        else [Action.probe, Action.transfer]
      let h := foldHooksU cfg.getsize cfg.events r2 none
      match cfg.transferRaise with
      | some msg => ⟨w1 :: (tws ++ (h.1 ++ [errorRow h.2.1 msg])), acts⟩
      | none =>
        let wF : Row := { h.2.1 with
          status := Status.completed
          file_path := some info.expectedPath
          file_size := (cfg.getsize info.expectedPath).getD 0
          progress := 100 }
        ⟨w1 :: (tws ++ (h.1 ++ [wF])), acts⟩

/-- utils.py `_run_download_task`: after the downloading write, a truthy
overlay string is tokenized; a tokenization error raises HTTPException inside
the try block, which the top-level handler converts into the error write (no
engine action has happened yet). -/
def runU (cfg : UtilsCfg) (r0 : Row) : RunOut :=
  let w1 := startRow r0
  if truthyStr cfg.ytDlpParams then
    match cfg.tokenize with
    | Except.error e => ⟨[w1, errorRow w1 (parseErrDetail e)], []⟩
    | Except.ok _ => runUEngine cfg w1
  else runUEngine cfg w1

/-- Program counter of one background-task invocation with respect to the
execution lock and its status writes: before the lock, holding the lock before
the downloading write, between the downloading write and the terminal write
(all intermediate writes of the run touch only non-status fields), after the
terminal write, and after releasing the lock. -/
inductive PC
  | start
  | locked
  | running
  | wroteTerminal
  | done
deriving DecidableEq

/-- Global state of the lock model: the lock owner, each task's program
counter, and each job's persisted status. -/
structure LState where
  lock : Option Nat
  pc : Nat → PC
  store : Nat → Status

/-- Interleaving semantics of concurrently invoked `_run_download_task` calls
(`job p` is the job id task `p` was invoked for) together with an environment
step covering every other writer of the status column (`create_download`
inserting `queued` rows, `retry_download`'s reset, external surgery): no
writer other than a run inside the lock ever stores `downloading`. -/
inductive LStep (job : Nat → Nat) : LState → LState → Prop
  | acquire (s : LState) (p : Nat) (hl : s.lock = none) (hp : s.pc p = PC.start) :
      LStep job s ⟨some p, Function.update s.pc p PC.locked, s.store⟩
  | setDownloading (s : LState) (p : Nat) (hl : s.lock = some p) (hp : s.pc p = PC.locked) :
      LStep job s ⟨s.lock, Function.update s.pc p PC.running,
        Function.update s.store (job p) Status.downloading⟩
  | setTerminal (s : LState) (p : Nat) (t : Status) (hl : s.lock = some p)
      (hp : s.pc p = PC.running) (ht : t = Status.completed ∨ t = Status.error) :
      LStep job s ⟨s.lock, Function.update s.pc p PC.wroteTerminal,
        Function.update s.store (job p) t⟩
  | release (s : LState) (p : Nat) (hl : s.lock = some p) (hp : s.pc p = PC.wroteTerminal) :
      LStep job s ⟨none, Function.update s.pc p PC.done, s.store⟩
  | env (s : LState) (j : Nat) (t : Status) (ht : t ≠ Status.downloading) :
      LStep job s ⟨s.lock, s.pc, Function.update s.store j t⟩

/-- Initial state: lock free, every task before its run, every job queued. -/
def initL : LState := ⟨none, fun _ => PC.start, fun _ => Status.queued⟩

/-- Reachability from the initial state under the interleaving semantics. -/
def Reach (job : Nat → Nat) (s : LState) : Prop :=
  Relation.ReflTransGen (LStep job) initL s

/-- Inductive invariant of the lock model: a job can only be `downloading`
while the task that wrote it holds the lock and sits between its downloading
write and its terminal write. -/
def LInv (job : Nat → Nat) (s : LState) : Prop :=
  ∀ j, s.store j = Status.downloading →
    ∃ p, s.lock = some p ∧ job p = j ∧ s.pc p = PC.running

theorem validateUrlErr_of_playlist (u : String) (hpl : isPlaylistUrl u = true) :
    ∃ e, validateUrlErr u = some e := by
  simp only [validateUrlErr]
  by_cases h : ¬((pyUrlparse u).scheme = "http" ∨ (pyUrlparse u).scheme = "https") ∨
      (pyUrlparse u).netloc = ""
  · rw [if_pos h]; exact ⟨_, rfl⟩
  · rw [if_neg h, if_pos hpl]; exact ⟨_, rfl⟩

/-- C8: a URL identified as a playlist by `_is_playlist_url` is always
rejected by `create_download` before the INSERT: the result is an
HTTPException, the store (in particular its row count) is unchanged, and no
background task is enqueued. -/
theorem playlist_rejected_before_insert (u : String) (d0 : Option String) (s : Store)
    (hpl : isPlaylistUrl u = true) :
    (∃ e, (createDownload (some u) d0 s).1 = Except.error e) ∧
    (createDownload (some u) d0 s).2.1 = s ∧
    (createDownload (some u) d0 s).2.2 = none ∧
    (createDownload (some u) d0 s).2.1.rows.length = s.rows.length := by
  obtain ⟨e, he⟩ := validateUrlErr_of_playlist u hpl
  by_cases hu : u = ""
  · subst hu; simp [createDownload]
  · cases d0 with
    | none => simp [createDownload, hu]
    | some d =>
      by_cases hd : d = ""
      · subst hd; simp [createDownload, hu]
      · simp [createDownload, hu, hd, he]

theorem playlist_rejected_before_insert_witness :
    isPlaylistUrl "https://www.youtube.com/watch?v=x&list=PL123" = true ∧
    ((∃ e, (createDownload (some "https://www.youtube.com/watch?v=x&list=PL123")
        (some "video") (⟨[], 1⟩ : Store)).1 = Except.error e) ∧
     (createDownload (some "https://www.youtube.com/watch?v=x&list=PL123")
        (some "video") (⟨[], 1⟩ : Store)).2.1 = (⟨[], 1⟩ : Store) ∧
     (createDownload (some "https://www.youtube.com/watch?v=x&list=PL123")
        (some "video") (⟨[], 1⟩ : Store)).2.2 = none ∧
     (createDownload (some "https://www.youtube.com/watch?v=x&list=PL123")
        (some "video") (⟨[], 1⟩ : Store)).2.1.rows.length = (⟨[], 1⟩ : Store).rows.length) :=
  ⟨by decide, playlist_rejected_before_insert _ _ _ (by decide)⟩

/-- C6: `retry_download` returns 409 and leaves the store untouched when the
row is `downloading`; for any other existing status it synchronously resets
progress, file_size, file_path, error_message, title and status and
re-enqueues the run for the stored url and download_type with
force_redownload=True. -/
theorem retry_contract (s : Store) (i : Nat) (row : JobRow)
    (h : findRow s i = some row) :
    (row.status = Status.downloading →
      retryDownload s i =
        (Except.error ⟨409, "ダウンロード中は再試行できません。"⟩, s, none)) ∧
    (row.status ≠ Status.downloading →
      retryDownload s i =
        (Except.ok (resetRow row),
         ⟨s.rows.map (fun r => if r.id == i then resetRow r else r), s.nextId⟩,
         some ⟨i, row.url, row.download_type, true⟩) ∧
      (resetRow row).progress = 0 ∧ (resetRow row).file_size = 0 ∧
      (resetRow row).file_path = none ∧ (resetRow row).error_message = none ∧
      (resetRow row).title = none ∧ (resetRow row).status = Status.queued ∧
      (resetRow row).url = row.url ∧ (resetRow row).download_type = row.download_type) := by
  constructor
  · intro hd; simp [retryDownload, h, hd]
  · intro hd; simp [retryDownload, h, hd, resetRow]

theorem retry_contract_witness :
    findRow (⟨[⟨3, "http://u/v", "audio", some "t", Status.error, 9, 37, none, some "boom"⟩], 4⟩ : Store) 3 =
      some ⟨3, "http://u/v", "audio", some "t", Status.error, 9, 37, none, some "boom"⟩ ∧
    Status.error ≠ Status.downloading ∧
    retryDownload (⟨[⟨3, "http://u/v", "audio", some "t", Status.error, 9, 37, none, some "boom"⟩], 4⟩ : Store) 3 =
      (Except.ok ⟨3, "http://u/v", "audio", none, Status.queued, 0, 0, none, none⟩,
       ⟨[⟨3, "http://u/v", "audio", none, Status.queued, 0, 0, none, none⟩], 4⟩,
       some ⟨3, "http://u/v", "audio", true⟩) := by
  refine ⟨by decide, by decide, ?_⟩
  have h := (retry_contract
      (⟨[⟨3, "http://u/v", "audio", some "t", Status.error, 9, 37, none, some "boom"⟩], 4⟩ : Store) 3
      ⟨3, "http://u/v", "audio", some "t", Status.error, 9, 37, none, some "boom"⟩
      (by decide)).2 (by decide)
  rw [h.1]; rfl

theorem parseQsl_name_from_token (q : String) (pr : String × String)
    (h : pr ∈ parseQsl q) :
    ∃ t ∈ splitOnCharL '&' q.data,
      ¬t.isEmpty = true ∧
      (t.takeWhile (fun c => c != '=')).length ≠ t.length ∧
      t.drop ((t.takeWhile (fun c => c != '=')).length + 1) ≠ [] ∧
      pr.1 = unquotePlusL (t.takeWhile (fun c => c != '=')) := by
  obtain ⟨t, ht, hdec⟩ := List.mem_filterMap.mp h
  refine ⟨t, ht, ?_⟩
  simp only [decodePairL] at hdec
  split at hdec
  · exact absurd hdec (by simp)
  · split at hdec
    · exact absurd hdec (by simp)
    · split at hdec
      · exact absurd hdec (by simp)
      · rename_i hemp hlen hval
        obtain rfl := (Option.some.inj hdec).symm
        exact ⟨hemp, by simpa using hlen, by simpa using hval, rfl⟩

/-- C10: for a URL with a valid http(s) scheme and a host, whose path does not
contain 'playlist', and whose query's raw `&`-tokens never pair the name
`list` with a non-empty raw value (e.g. `?list=` — blank values are dropped by
parse_qsl before decoding), `_is_playlist_url` is false and the submission is
accepted: a queued row is appended to the store and a run is enqueued. -/
theorem blank_list_param_accepted (u d : String) (s : Store)
    (hd : d = "video" ∨ d = "audio")
    (hs : (pyUrlparse u).scheme = "http" ∨ (pyUrlparse u).scheme = "https")
    (hn : (pyUrlparse u).netloc ≠ "")
    (hp : containsSub (pyUrlparse u).path "playlist" = false)
    (hq : ∀ t ∈ splitOnCharL '&' (pyUrlparse u).query.data,
      unquotePlusL (t.takeWhile (fun c => c != '=')) = "list" →
      t.drop ((t.takeWhile (fun c => c != '=')).length + 1) = []) :
    isPlaylistUrl u = false ∧
    createDownload (some u) (some d) s =
      (Except.ok ⟨s.nextId, u, d, none, Status.queued, 0, 0, none, none⟩,
       ⟨s.rows ++ [⟨s.nextId, u, d, none, Status.queued, 0, 0, none, none⟩], s.nextId + 1⟩,
       some ⟨s.nextId, u, d, false⟩) := by
  have hu : u ≠ "" := by
    intro hu0
    subst hu0
    have h0 : pyUrlparse "" = ⟨"", "", "", ""⟩ := rfl
    rw [h0] at hs
    rcases hs with h | h <;> exact absurd h (by decide)
  have hany : (parseQsl (pyUrlparse u).query).any (fun pr => pr.1 == "list") = false := by
    rw [List.any_eq_false]
    rintro ⟨n, v⟩ hmem hc
    obtain ⟨t, ht, _, _, hvne, hname⟩ := parseQsl_name_from_token _ _ hmem
    have hn0 : n = "list" := by simpa using hc
    exact hvne (hq t ht (hname ▸ hn0 ▸ rfl))
  have hnp : isPlaylistUrl u = false := by
    simp only [isPlaylistUrl, hany, hp, Bool.and_false, if_false]
    simp
  have hvu : validateUrlErr u = none := by
    simp only [validateUrlErr]
    rw [if_neg (by push_neg; exact ⟨hs, hn⟩), if_neg (by simp [hnp])]
  have hvd : validateTypeErr d = none := by
    simp only [validateTypeErr]
    rw [if_pos hd]
  have hd0 : d ≠ "" := by rcases hd with h | h <;> subst h <;> decide
  refine ⟨hnp, ?_⟩
  simp [createDownload, hu, hd0, hvu, hvd]

theorem blank_list_param_accepted_witness :
    ((("video" : String) = "video" ∨ ("video" : String) = "audio") ∧
     ((pyUrlparse "http://example.com/watch?v=abc&list=").scheme = "http" ∨
      (pyUrlparse "http://example.com/watch?v=abc&list=").scheme = "https") ∧
     (pyUrlparse "http://example.com/watch?v=abc&list=").netloc ≠ "" ∧
     containsSub (pyUrlparse "http://example.com/watch?v=abc&list=").path "playlist" = false ∧
     (∀ t ∈ splitOnCharL '&' (pyUrlparse "http://example.com/watch?v=abc&list=").query.data,
        unquotePlusL (t.takeWhile (fun c => c != '=')) = "list" →
        t.drop ((t.takeWhile (fun c => c != '=')).length + 1) = [])) ∧
    isPlaylistUrl "http://example.com/watch?v=abc&list=" = false ∧
    createDownload (some "http://example.com/watch?v=abc&list=") (some "video") (⟨[], 1⟩ : Store) =
      (Except.ok ⟨1, "http://example.com/watch?v=abc&list=", "video", none, Status.queued, 0, 0, none, none⟩,
       ⟨[⟨1, "http://example.com/watch?v=abc&list=", "video", none, Status.queued, 0, 0, none, none⟩], 2⟩,
       some ⟨1, "http://example.com/watch?v=abc&list=", "video", false⟩) := by
  refine ⟨⟨by decide, by decide, by decide, by decide, by decide⟩, ?_⟩
  have h := blank_list_param_accepted "http://example.com/watch?v=abc&list=" "video"
    (⟨[], 1⟩ : Store) (by decide) (by decide) (by decide) (by decide) (by decide)
  exact ⟨h.1, h.2.trans (by rfl)⟩

/-- C4: when the probe-computed expected output file already exists:
with force_redownload=false the run short-circuits — the only engine action is
the probe and the final write is completed with the expected path, the stat
size (0 on OSError) and progress 100; with force_redownload=true the run
unlinks the file and proceeds to transfer, and a failing unlink (best-effort)
changes nothing observable. -/
theorem existing_file_decision (cfg : RunCfg) (info : ProbeInfo) (r0 : Row)
    (hprobe : cfg.probe = Except.ok info) (he : cfg.existsExpected = true) :
    (cfg.force = false →
      (runDL cfg r0).actions = [Action.probe] ∧
      (runDL cfg r0).writes.getLast? = some { titleRow info (startRow r0) with
        status := Status.completed
        file_path := some info.expectedPath
        file_size := cfg.statExpected.getD 0
        progress := 100 }) ∧
    (cfg.force = true →
      (runDL cfg r0).actions =
        [Action.probe, Action.unlink info.expectedPath, Action.transfer] ∧
      ∀ b1 b2 : Bool,
        runDL { cfg with unlinkFails := b1 } r0 = runDL { cfg with unlinkFails := b2 } r0) := by
  constructor
  · intro hf
    rw [runDL, hprobe]
    simp only [he, hf, Bool.not_false, Bool.and_true, if_true]
    refine ⟨by simp, ?_⟩
    rw [← List.cons_append, List.getLast?_concat]
  · intro hf
    constructor
    · rw [runDL, hprobe]
      simp only [he, hf, Bool.not_true, Bool.and_false, Bool.false_eq_true, if_false,
        if_true]
      cases cfg.transferRaise <;> rfl
    · intro b1 b2
      cases cfg
      rfl

theorem existing_file_decision_witness :
    (⟨false, Except.ok ⟨some "T", "/d/e.mp4"⟩, true, some 42, false, [], none,
        fun _ => none⟩ : RunCfg).probe = Except.ok ⟨some "T", "/d/e.mp4"⟩ ∧
    (⟨false, Except.ok ⟨some "T", "/d/e.mp4"⟩, true, some 42, false, [], none,
        fun _ => none⟩ : RunCfg).existsExpected = true ∧
    ((⟨false, Except.ok ⟨some "T", "/d/e.mp4"⟩, true, some 42, false, [], none,
        fun _ => none⟩ : RunCfg).force = false →
      (runDL ⟨false, Except.ok ⟨some "T", "/d/e.mp4"⟩, true, some 42, false, [], none,
        fun _ => none⟩ freshRow).actions = [Action.probe] ∧
      (runDL ⟨false, Except.ok ⟨some "T", "/d/e.mp4"⟩, true, some 42, false, [], none,
        fun _ => none⟩ freshRow).writes.getLast? =
        some { titleRow ⟨some "T", "/d/e.mp4"⟩ (startRow freshRow) with
          status := Status.completed
          file_path := some "/d/e.mp4"
          file_size := (some 42 : Option Nat).getD 0
          progress := 100 }) := by
  refine ⟨rfl, rfl, ?_⟩
  exact (existing_file_decision _ ⟨some "T", "/d/e.mp4"⟩ freshRow rfl rfl).1

theorem foldHooksDL_append (gs : String → Option Nat) (as bs : List HookEvent) :
    ∀ (r : Row) (fn : Option String),
      foldHooksDL gs (as ++ bs) r fn =
        ((foldHooksDL gs as r fn).1 ++
          (foldHooksDL gs bs (foldHooksDL gs as r fn).2.1 (foldHooksDL gs as r fn).2.2).1,
         (foldHooksDL gs bs (foldHooksDL gs as r fn).2.1 (foldHooksDL gs as r fn).2.2).2) := by
  induction as with
  | nil => intro r fn; simp [foldHooksDL]
  | cons e es ih => intro r fn; simp [foldHooksDL, ih]

/-- C5: when the transfer succeeds and the last hook event was a finished
event carrying a (non-empty) filename — the post-processed final path — the
finalize write of the downloads.py revision persists exactly that path as
file_path (overriding the probe-time expected path) together with
status=completed, progress=100 and the size `os.path.getsize` reports for
that real path (0 on OSError). -/
theorem finalize_uses_postprocessed_path (cfg : RunCfg) (info : ProbeInfo) (r0 : Row)
    (pre : List HookEvent) (f : String)
    (hprobe : cfg.probe = Except.ok info)
    (hev : cfg.events = pre ++ [HookEvent.finished (some f)])
    (hf : f ≠ "")
    (hns : cfg.existsExpected = false ∨ cfg.force = true)
    (ht : cfg.transferRaise = none) :
    ∃ r, (runDL cfg r0).writes.getLast? = some r ∧
      r.status = Status.completed ∧ r.file_path = some f ∧
      r.file_size = (cfg.getsize f).getD 0 ∧ r.progress = 100 := by
  have htr : truthyStr (some f) = true := by
    simp [truthyStr]; exact hf
  have hcond : (cfg.existsExpected && !cfg.force) = false := by
    rcases hns with h | h <;> simp [h]
  have hfold : (foldHooksDL cfg.getsize cfg.events (titleRow info (startRow r0)) none).2.2 =
      some f := by
    rw [hev, foldHooksDL_append]
    simp only [foldHooksDL, hookStepDL, pyOrStr, htr, if_true]
  rw [runDL, hprobe]
  simp only [hcond, Bool.false_eq_true, if_false, ht, hfold]
  rw [if_pos hf]
  exact ⟨{ (foldHooksDL cfg.getsize cfg.events (titleRow info (startRow r0)) none).2.1 with
      status := Status.completed
      file_path := some f
      file_size := (cfg.getsize f).getD 0
      progress := 100 },
    by rw [← List.append_assoc, ← List.cons_append, List.getLast?_concat],
    rfl, rfl, rfl, rfl⟩

theorem finalize_uses_postprocessed_path_witness :
    (⟨false, Except.ok ⟨none, "/d/e.mp4"⟩, false, none, false,
        [HookEvent.progress (some 1000) none (some 500) (some "/d/e.mp4.part"),
         HookEvent.finished (some "/d/e.mp3")], none, fun p => if p = "/d/e.mp3" then some 777 else none⟩ :
      RunCfg).events =
      [HookEvent.progress (some 1000) none (some 500) (some "/d/e.mp4.part")] ++
        [HookEvent.finished (some "/d/e.mp3")] ∧
    ∃ r, (runDL ⟨false, Except.ok ⟨none, "/d/e.mp4"⟩, false, none, false,
        [HookEvent.progress (some 1000) none (some 500) (some "/d/e.mp4.part"),
         HookEvent.finished (some "/d/e.mp3")], none, fun p => if p = "/d/e.mp3" then some 777 else none⟩
        freshRow).writes.getLast? = some r ∧
      r.status = Status.completed ∧ r.file_path = some "/d/e.mp3" ∧
      r.file_size = ((fun p => if p = "/d/e.mp3" then some 777 else none) "/d/e.mp3").getD 0 ∧
      r.progress = 100 :=
  ⟨rfl, finalize_uses_postprocessed_path _ ⟨none, "/d/e.mp4"⟩ freshRow
    [HookEvent.progress (some 1000) none (some 500) (some "/d/e.mp4.part")] "/d/e.mp3"
    rfl rfl (by decide) (Or.inl rfl) rfl⟩

theorem truncate500_length_le (s : String) : (truncate500 s).length ≤ 500 := by
  simp only [truncate500]
  split
  · rename_i h
    show (s.data.take 500).length ≤ 500
    simp [List.length_take]
  · omega

/-- C9 counterexample to the claim as stated: when the engine raises an
exception whose message is empty, the persisted error_message is the empty
string, not a non-empty one.  Here the transfer raises "" after one progress
event (500 of 1000 bytes): the final write is status=error with
error_message = some "" while progress stays 50. -/
theorem error_message_nonempty_cex :
    (runDL ⟨false, Except.ok ⟨none, "/d/e.mp4"⟩, false, none, false,
        [HookEvent.progress (some 1000) none (some 500) none], some "", fun _ => none⟩
      freshRow).writes.getLast? =
      some ⟨Status.error, 50, 1000, none, some "", none⟩ ∧
    ("" : String).length = 0 := by
  exact ⟨rfl, rfl⟩

/-- C9 amended: when the engine raises mid-transfer with message `msg`, the
run's final write is the error write applied to the last reported row state:
status=error, error_message = the (possibly empty, hence non-null) message
truncated to at most 500 characters, while progress, file_size and file_path
are exactly those of the last reported state (the error write does not touch
them). -/
theorem engine_failure_error_write (cfg : RunCfg) (info : ProbeInfo) (r0 : Row)
    (msg : String)
    (hprobe : cfg.probe = Except.ok info)
    (hns : cfg.existsExpected = false ∨ cfg.force = true)
    (ht : cfg.transferRaise = some msg) :
    (runDL cfg r0).writes.getLast? = some (errorRow (lastReportedDL cfg info r0) msg) ∧
    (errorRow (lastReportedDL cfg info r0) msg).status = Status.error ∧
    (errorRow (lastReportedDL cfg info r0) msg).error_message = some (truncate500 msg) ∧
    (truncate500 msg).length ≤ 500 ∧
    (errorRow (lastReportedDL cfg info r0) msg).progress = (lastReportedDL cfg info r0).progress ∧
    (errorRow (lastReportedDL cfg info r0) msg).file_size = (lastReportedDL cfg info r0).file_size ∧
    (errorRow (lastReportedDL cfg info r0) msg).file_path = (lastReportedDL cfg info r0).file_path := by
  have hcond : (cfg.existsExpected && !cfg.force) = false := by
    rcases hns with h | h <;> simp [h]
  refine ⟨?_, rfl, rfl, truncate500_length_le msg, rfl, rfl, rfl⟩
  rw [runDL, hprobe]
  simp only [hcond, Bool.false_eq_true, if_false, ht]
  rw [← List.append_assoc, ← List.cons_append, List.getLast?_concat]
  rfl

theorem engine_failure_error_write_witness :
    (⟨false, Except.ok ⟨none, "/v.mp4"⟩, false, none, false,
        [HookEvent.progress (some 200) none (some 100) none], some "network down",
        fun _ => none⟩ : RunCfg).probe = Except.ok ⟨none, "/v.mp4"⟩ ∧
    ((⟨false, Except.ok ⟨none, "/v.mp4"⟩, false, none, false,
        [HookEvent.progress (some 200) none (some 100) none], some "network down",
        fun _ => none⟩ : RunCfg).existsExpected = false ∨
      (⟨false, Except.ok ⟨none, "/v.mp4"⟩, false, none, false,
        [HookEvent.progress (some 200) none (some 100) none], some "network down",
        fun _ => none⟩ : RunCfg).force = true) ∧
    (runDL ⟨false, Except.ok ⟨none, "/v.mp4"⟩, false, none, false,
        [HookEvent.progress (some 200) none (some 100) none], some "network down",
        fun _ => none⟩ freshRow).writes.getLast? =
      some (errorRow (lastReportedDL ⟨false, Except.ok ⟨none, "/v.mp4"⟩, false, none, false,
        [HookEvent.progress (some 200) none (some 100) none], some "network down",
        fun _ => none⟩ ⟨none, "/v.mp4"⟩ freshRow) "network down") ∧
    (truncate500 "network down").length ≤ 500 := by
  have h := engine_failure_error_write ⟨false, Except.ok ⟨none, "/v.mp4"⟩, false, none, false,
    [HookEvent.progress (some 200) none (some 100) none], some "network down",
    fun _ => none⟩ ⟨none, "/v.mp4"⟩ freshRow "network down" rfl (Or.inl rfl) rfl
  exact ⟨rfl, Or.inl rfl, h.1, h.2.2.2.1⟩

/-- C7 counterexample to the claim as stated: a submission whose overlay
string has unbalanced quoting (shlex raises "No closing quotation") is not
rejected synchronously before the run — in the utils.py revision the parse
happens inside the background run, after the row was already mutated to
status=downloading, and the failure is persisted as a status=error row; the
only true part is that no engine action happens. -/
theorem overlay_parse_synchronous_cex :
    (runU ⟨false, some "--foo x", Except.error "No closing quotation",
        Except.ok ⟨none, "/x"⟩, false, none, [], none, fun _ => none⟩ freshRow).writes =
      [⟨Status.downloading, 0, 0, none, none, none⟩,
       ⟨Status.error, 0, 0, none,
        some "422: 追加パラメータの解析に失敗しました: No closing quotation", none⟩] ∧
    (runU ⟨false, some "--foo x", Except.error "No closing quotation",
        Except.ok ⟨none, "/x"⟩, false, none, [], none, fun _ => none⟩ freshRow).actions = [] := by
  exact ⟨rfl, rfl⟩

/-- C7 amended: with a truthy overlay string whose tokenization fails, the run
(not the submission) detects the error: it has already written
status=downloading, then persists status=error with the structured parse
message (str of the HTTPException, truncated to 500), and performs no engine
action — the parse error is never silently ignored, but it is observed inside
the run protocol, not synchronously by the submitter. -/
theorem overlay_parse_in_run (cfg : UtilsCfg) (e : String) (r0 : Row)
    (hp : truthyStr cfg.ytDlpParams = true)
    (he : cfg.tokenize = Except.error e) :
    runU cfg r0 = ⟨[startRow r0, errorRow (startRow r0) (parseErrDetail e)], []⟩ ∧
    (startRow r0).status = Status.downloading ∧
    (errorRow (startRow r0) (parseErrDetail e)).status = Status.error ∧
    (errorRow (startRow r0) (parseErrDetail e)).error_message =
      some (truncate500 (parseErrDetail e)) := by
  refine ⟨?_, rfl, rfl, rfl⟩
  rw [runU]
  simp only [hp, he, if_true]

theorem overlay_parse_in_run_witness :
    truthyStr (⟨true, some "--proxy \"http://p", Except.error "No closing quotation",
        Except.ok ⟨none, "/x"⟩, false, none, [], none, fun _ => none⟩ : UtilsCfg).ytDlpParams = true ∧
    (⟨true, some "--proxy \"http://p", Except.error "No closing quotation",
        Except.ok ⟨none, "/x"⟩, false, none, [], none, fun _ => none⟩ : UtilsCfg).tokenize =
      Except.error "No closing quotation" ∧
    runU ⟨true, some "--proxy \"http://p", Except.error "No closing quotation",
        Except.ok ⟨none, "/x"⟩, false, none, [], none, fun _ => none⟩ freshRow =
      ⟨[startRow freshRow,
        errorRow (startRow freshRow) (parseErrDetail "No closing quotation")], []⟩ := by
  have h := overlay_parse_in_run ⟨true, some "--proxy \"http://p",
    Except.error "No closing quotation", Except.ok ⟨none, "/x"⟩, false, none, [], none,
    fun _ => none⟩ "No closing quotation" freshRow (by decide) rfl
  exact ⟨by decide, rfl, h.1⟩

/-- C3 counterexample to the claim as stated: when no total is known
(total_bytes and total_bytes_estimate both absent), `_hook` does not leave the
persisted progress unchanged — it writes progress 0 (and file_size 0).  Here
the previous row had progress 50 and the event carries 500 downloaded bytes
with no total; the committed write has progress 0 ≠ 50. -/
theorem progress_unchanged_without_total_cex :
    (hookStepDL (fun _ => none) (⟨Status.downloading, 50, 800, none, none, none⟩, none)
        (HookEvent.progress none none (some 500) none)).1 =
      some ⟨Status.downloading, 0, 0, none, none, none⟩ ∧
    (0 : Nat) ≠ 50 := ⟨rfl, by decide⟩

theorem foldHooksDL_progress1000 (gs : String → Option Nat) (ds : List Nat) :
    ∀ (r : Row) (fn : Option String),
      ((foldHooksDL gs (ds.map (fun d => HookEvent.progress (some 1000) none (some d) none))
          r fn).1.map (fun x => x.progress)) =
        ds.map (fun d => max 0 (min 100 (d * 100 / 1000))) := by
  induction ds with
  | nil => intro r fn; rfl
  | cons d ds ih =>
    intro r fn
    simp only [List.map_cons, foldHooksDL, hookStepDL]
    simp [ih, orTotal, truthyNat, orZero]

/-- C3 amended: on a transfer-progress event with a known (non-zero effective)
total, `_hook` writes progress = clamp(0,100, downloaded*100/total) and
file_size = total, leaving status and file_path alone; with no known total it
writes progress 0 and file_size 0 (it does NOT leave progress unchanged); and
for a monotone sequence of downloaded_bytes with fixed total_bytes=1000 the
persisted progress values equal clamp(0,100, d*100/1000) and are monotone
non-decreasing. -/
theorem progress_hook_amended :
    (∀ (gs : String → Option Nat) (r : Row) (fn : Option String)
        (tb tbe db : Option Nat) (f : Option String),
      orTotal tb tbe ≠ 0 →
      ∃ w, (hookStepDL gs (r, fn) (HookEvent.progress tb tbe db f)).1 = some w ∧
        w.progress = max 0 (min 100 (orZero db * 100 / orTotal tb tbe)) ∧
        w.file_size = orTotal tb tbe ∧ w.status = r.status ∧ w.file_path = r.file_path) ∧
    (∀ (gs : String → Option Nat) (r : Row) (fn : Option String)
        (tb tbe db : Option Nat) (f : Option String),
      orTotal tb tbe = 0 →
      ∃ w, (hookStepDL gs (r, fn) (HookEvent.progress tb tbe db f)).1 = some w ∧
        w.progress = 0 ∧ w.file_size = 0) ∧
    (∀ (gs : String → Option Nat) (r : Row) (fn : Option String) (ds : List Nat),
      List.Sorted (· ≤ ·) ds →
      ((foldHooksDL gs (ds.map (fun d => HookEvent.progress (some 1000) none (some d) none))
          r fn).1.map (fun x => x.progress)) =
        ds.map (fun d => max 0 (min 100 (d * 100 / 1000))) ∧
      List.Sorted (· ≤ ·)
        ((foldHooksDL gs (ds.map (fun d => HookEvent.progress (some 1000) none (some d) none))
          r fn).1.map (fun x => x.progress))) := by
  refine ⟨?_, ?_, ?_⟩
  · intro gs r fn tb tbe db f h
    exact ⟨_, rfl, if_pos h, rfl, rfl, rfl⟩
  · intro gs r fn tb tbe db f h
    exact ⟨_, rfl, if_neg (fun hc => hc h), h⟩
  · intro gs r fn ds hs
    refine ⟨foldHooksDL_progress1000 gs ds r fn, ?_⟩
    rw [foldHooksDL_progress1000 gs ds r fn]
    refine List.pairwise_map.mpr (hs.imp ?_)
    intro a b hab
    have h1 : a * 100 / 1000 ≤ b * 100 / 1000 :=
      Nat.div_le_div_right (Nat.mul_le_mul_right _ hab)
    simp only [Nat.zero_max]
    exact min_le_min (le_refl 100) h1

theorem progress_hook_amended_witness :
    orTotal (some 1000) none ≠ 0 ∧
    (∃ w, (hookStepDL (fun _ => none) (freshRow, none)
        (HookEvent.progress (some 1000) none (some 250) none)).1 = some w ∧
      w.progress = max 0 (min 100 (orZero (some 250) * 100 / orTotal (some 1000) none)) ∧
      w.file_size = orTotal (some 1000) none ∧ w.status = freshRow.status ∧
      w.file_path = freshRow.file_path) ∧
    List.Sorted (· ≤ ·) [100, 400, 1000] ∧
    ((foldHooksDL (fun _ => none)
        ([100, 400, 1000].map (fun d => HookEvent.progress (some 1000) none (some d) none))
        freshRow none).1.map (fun x => x.progress)) =
      [100, 400, 1000].map (fun d => max 0 (min 100 (d * 100 / 1000))) := by
  refine ⟨by decide, ?_, by decide, ?_⟩
  · exact progress_hook_amended.1 (fun _ => none) freshRow none (some 1000) none (some 250)
      none (by decide)
  · exact (progress_hook_amended.2.2 (fun _ => none) freshRow none [100, 400, 1000]
      (by decide)).1

/-- C2 counterexample to the claim as stated, on the downloads.py revision:
`_hook`'s finished branch writes file_path while status is still downloading.
In a run where the transfer fires a finished event with filename "/d/x.webm"
and then raises "boom", two committed states violate the equivalence — the
finished-hook write (file_path set, status=downloading) and the error write
(file_path set, status=error). -/
theorem filePath_iff_completed_cex :
    ¬ ∀ r ∈ (runDL ⟨false, Except.ok ⟨none, "/d/x.mp4"⟩, false, none, false,
        [HookEvent.finished (some "/d/x.webm")], some "boom", fun _ => none⟩ freshRow).writes,
      ((r.file_path ≠ none ↔ r.status = Status.completed) ∧
       (r.error_message ≠ none ↔ r.status = Status.error)) := by
  decide

theorem foldHooksDL_writes_props (gs : String → Option Nat) (evs : List HookEvent) :
    ∀ (r : Row) (fn : Option String),
      ((foldHooksDL gs evs r fn).2.1.status = r.status ∧
       (foldHooksDL gs evs r fn).2.1.error_message = r.error_message ∧
       ((foldHooksDL gs evs r fn).2.1.file_path = r.file_path ∨
         ∃ e ∈ evs, isFinishedEv e = true)) ∧
      ∀ x ∈ (foldHooksDL gs evs r fn).1,
        x.status = r.status ∧ x.error_message = r.error_message ∧
        (x.file_path = r.file_path ∨ ∃ e ∈ evs, isFinishedEv e = true) := by
  induction evs with
  | nil =>
    intro r fn
    refine ⟨⟨rfl, rfl, Or.inl rfl⟩, ?_⟩
    intro x hx
    simp [foldHooksDL] at hx
  | cons e es ih =>
    intro r fn
    cases e with
    | progress tb tbe db f =>
      simp only [foldHooksDL, hookStepDL, Option.toList_some, List.cons_append,
        List.nil_append]
      set w : Row := { r with
        progress := if orTotal tb tbe ≠ 0 then
            max 0 (min 100 (orZero db * 100 / orTotal tb tbe)) else 0
        file_size := orTotal tb tbe } with hw
      have hws : w.status = r.status := rfl
      have hwe : w.error_message = r.error_message := rfl
      have hwp : w.file_path = r.file_path := rfl
      obtain ⟨⟨h1, h2, h3⟩, h4⟩ :=
        ih w (if truthyStr (pyOrStr f fn) = true then pyOrStr f fn else fn)
      refine ⟨⟨h1.trans hws, h2.trans hwe, ?_⟩, ?_⟩
      · rcases h3 with h | ⟨e0, he0, hfe⟩
        · exact Or.inl (h.trans hwp)
        · exact Or.inr ⟨e0, List.mem_cons_of_mem _ he0, hfe⟩
      · intro x hx
        rcases List.mem_cons.mp hx with hx | hx
        · subst hx; exact ⟨hws, hwe, Or.inl hwp⟩
        · obtain ⟨g1, g2, g3⟩ := h4 x hx
          refine ⟨g1.trans hws, g2.trans hwe, ?_⟩
          rcases g3 with h | ⟨e0, he0, hfe⟩
          · exact Or.inl (h.trans hwp)
          · exact Or.inr ⟨e0, List.mem_cons_of_mem _ he0, hfe⟩
    | finished f =>
      by_cases hfx : truthyStr (pyOrStr f fn) = true
      · simp only [foldHooksDL, hookStepDL, hfx, if_true, Option.toList_some,
          List.cons_append, List.nil_append]
        set w : Row := { r with
          file_path := pyOrStr f fn
          file_size := (gs ((pyOrStr f fn).getD "")).getD 0
          progress := 100 } with hw
        have hws : w.status = r.status := rfl
        have hwe : w.error_message = r.error_message := rfl
        have hfin : ∃ e0 ∈ HookEvent.finished f :: es, isFinishedEv e0 = true :=
          ⟨HookEvent.finished f, List.mem_cons_self _ _, rfl⟩
        obtain ⟨⟨h1, h2, _⟩, h4⟩ := ih w (pyOrStr f fn)
        refine ⟨⟨h1.trans hws, h2.trans hwe, Or.inr hfin⟩, ?_⟩
        intro x hx
        rcases List.mem_cons.mp hx with hx | hx
        · subst hx; exact ⟨hws, hwe, Or.inr hfin⟩
        · obtain ⟨g1, g2, _⟩ := h4 x hx
          exact ⟨g1.trans hws, g2.trans hwe, Or.inr hfin⟩
      · simp only [foldHooksDL, hookStepDL, hfx, if_false, Option.toList_none,
          List.nil_append]
        obtain ⟨⟨h1, h2, h3⟩, h4⟩ := ih r fn
        refine ⟨⟨h1, h2, ?_⟩, ?_⟩
        · rcases h3 with h | ⟨e0, he0, hfe⟩
          · exact Or.inl h
          · exact Or.inr ⟨e0, List.mem_cons_of_mem _ he0, hfe⟩
        · intro x hx
          obtain ⟨g1, g2, g3⟩ := h4 x hx
          refine ⟨g1, g2, ?_⟩
          rcases g3 with h | ⟨e0, he0, hfe⟩
          · exact Or.inl h
          · exact Or.inr ⟨e0, List.mem_cons_of_mem _ he0, hfe⟩
    | other =>
      simp only [foldHooksDL, hookStepDL, Option.toList_none, List.nil_append]
      obtain ⟨⟨h1, h2, h3⟩, h4⟩ := ih r fn
      refine ⟨⟨h1, h2, ?_⟩, ?_⟩
      · rcases h3 with h | ⟨e0, he0, hfe⟩
        · exact Or.inl h
        · exact Or.inr ⟨e0, List.mem_cons_of_mem _ he0, hfe⟩
      · intro x hx
        obtain ⟨g1, g2, g3⟩ := h4 x hx
        refine ⟨g1, g2, ?_⟩
        rcases g3 with h | ⟨e0, he0, hfe⟩
        · exact Or.inl h
        · exact Or.inr ⟨e0, List.mem_cons_of_mem _ he0, hfe⟩

/-- C2 amended, for a downloads.py run starting from any row state r0 (a
second run may be enqueued by retrying a still-queued job, so a run can start
from a row whose file_path is still non-null from an earlier completed run —
the downloading write at run start touches only status/progress/error_message
and leaves such a stale file_path in place): at every committed state of the
run, error_message is non-null iff status='error', and status='completed'
implies file_path non-null; but file_path non-null implies status='completed'
only when no finished hook event occurred in the run and the run did not start
with file_path already non-null — the finished-hook write sets file_path
while status is still 'downloading', and an engine failure then leaves
file_path non-null with status='error'. -/
theorem row_invariant_amended (cfg : RunCfg) (r0 : Row) :
    ∀ r ∈ (runDL cfg r0).writes,
      (r.error_message ≠ none ↔ r.status = Status.error) ∧
      (r.status = Status.completed → r.file_path ≠ none) ∧
      (r.file_path ≠ none →
        r.status = Status.completed ∨ (∃ e ∈ cfg.events, isFinishedEv e = true) ∨
          r0.file_path ≠ none) := by
  intro r hr
  cases hprobe : cfg.probe with
  | error msg =>
    simp only [runDL, hprobe, List.mem_cons, List.not_mem_nil, or_false] at hr
    rcases hr with rfl | rfl
    · exact ⟨by simp [startRow], by simp [startRow], fun h => Or.inr (Or.inr h)⟩
    · refine ⟨⟨fun _ => rfl, fun _ => by simp [errorRow]⟩,
        fun h => absurd h (by simp [errorRow]), fun h => Or.inr (Or.inr h)⟩
  | ok info =>
    have ht1 : (titleRow info (startRow r0)).status = Status.downloading := by
      unfold titleRow; split <;> rfl
    have ht2 : (titleRow info (startRow r0)).error_message = none := by
      unfold titleRow; split <;> rfl
    have ht3 : (titleRow info (startRow r0)).file_path = r0.file_path := by
      unfold titleRow; split <;> rfl
    simp only [runDL, hprobe] at hr
    by_cases hex : (cfg.existsExpected && !cfg.force) = true
    · rw [if_pos hex] at hr
      simp only [List.mem_cons, List.mem_append, List.not_mem_nil, or_false] at hr
      rcases hr with rfl | hr | rfl
      · exact ⟨by simp [startRow], by simp [startRow], fun h => Or.inr (Or.inr h)⟩
      · have hr2 : r = titleRow info (startRow r0) := by
          by_cases hti : truthyStr info.title = true
          · simp only [hti, if_true, List.mem_singleton] at hr; exact hr
          · rw [if_neg hti] at hr; exact absurd hr (List.not_mem_nil r)
        subst hr2
        refine ⟨by rw [ht2, ht1]; simp, ?_, ?_⟩
        · intro h; rw [ht1] at h; exact nomatch h
        · intro h; rw [ht3] at h; exact Or.inr (Or.inr h)
      · refine ⟨⟨fun h => absurd ht2 h, fun h => absurd h (by simp)⟩,
          fun _ => by simp, fun _ => Or.inl rfl⟩
    · rw [if_neg hex] at hr
      have hfold := foldHooksDL_writes_props cfg.getsize cfg.events
        (titleRow info (startRow r0)) none
      cases htr : cfg.transferRaise with
      | some msg =>
        simp only [htr, List.mem_cons, List.mem_append, List.not_mem_nil, or_false] at hr
        rcases hr with rfl | hr | hr | rfl
        · exact ⟨by simp [startRow], by simp [startRow], fun h => Or.inr (Or.inr h)⟩
        · have hr2 : r = titleRow info (startRow r0) := by
            by_cases hti : truthyStr info.title = true
            · simp only [hti, if_true, List.mem_singleton] at hr; exact hr
            · rw [if_neg hti] at hr; exact absurd hr (List.not_mem_nil r)
          subst hr2
          refine ⟨by rw [ht2, ht1]; simp, ?_, ?_⟩
          · intro h; rw [ht1] at h; exact nomatch h
          · intro h; rw [ht3] at h; exact Or.inr (Or.inr h)
        · obtain ⟨g1, g2, g3⟩ := hfold.2 r hr
          refine ⟨by rw [g2, ht2, g1, ht1]; simp, ?_, ?_⟩
          · intro h; rw [g1, ht1] at h; exact nomatch h
          · intro hp
            rcases g3 with h | ⟨e0, he0, hfe⟩
            · rw [h, ht3] at hp; exact Or.inr (Or.inr hp)
            · exact Or.inr (Or.inl ⟨e0, he0, hfe⟩)
        · refine ⟨⟨fun _ => rfl, fun _ => by simp [errorRow]⟩,
            fun h => absurd h (by simp [errorRow]), ?_⟩
          intro hp
          rcases hfold.1.2.2 with h | ⟨e0, he0, hfe⟩
          · exact Or.inr (Or.inr (fun hc => hp (h.trans (ht3.trans hc))))
          · exact Or.inr (Or.inl ⟨e0, he0, hfe⟩)
      | none =>
        simp only [htr, List.mem_cons, List.mem_append, List.not_mem_nil, or_false] at hr
        rcases hr with rfl | hr | hr | rfl
        · exact ⟨by simp [startRow], by simp [startRow], fun h => Or.inr (Or.inr h)⟩
        · have hr2 : r = titleRow info (startRow r0) := by
            by_cases hti : truthyStr info.title = true
            · simp only [hti, if_true, List.mem_singleton] at hr; exact hr
            · rw [if_neg hti] at hr; exact absurd hr (List.not_mem_nil r)
          subst hr2
          refine ⟨by rw [ht2, ht1]; simp, ?_, ?_⟩
          · intro h; rw [ht1] at h; exact nomatch h
          · intro h; rw [ht3] at h; exact Or.inr (Or.inr h)
        · obtain ⟨g1, g2, g3⟩ := hfold.2 r hr
          refine ⟨by rw [g2, ht2, g1, ht1]; simp, ?_, ?_⟩
          · intro h; rw [g1, ht1] at h; exact nomatch h
          · intro hp
            rcases g3 with h | ⟨e0, he0, hfe⟩
            · rw [h, ht3] at hp; exact Or.inr (Or.inr hp)
            · exact Or.inr (Or.inl ⟨e0, he0, hfe⟩)
        · refine ⟨⟨fun h => absurd (hfold.1.2.1.trans ht2) h, fun h => absurd h (by simp)⟩,
            fun _ => by simp, fun _ => Or.inl rfl⟩

theorem row_invariant_amended_witness :
    startRow (⟨Status.completed, 100, 7, some "/d/stale.mp4", none, some "t"⟩ : Row) ∈
      (runDL ⟨true, Except.ok ⟨none, "/d/e.mp4"⟩, false, none, false, [], some "boom",
          fun _ => none⟩
        (⟨Status.completed, 100, 7, some "/d/stale.mp4", none, some "t"⟩ : Row)).writes ∧
    (((startRow (⟨Status.completed, 100, 7, some "/d/stale.mp4", none, some "t"⟩ : Row)).error_message ≠
          none ↔
        (startRow (⟨Status.completed, 100, 7, some "/d/stale.mp4", none, some "t"⟩ : Row)).status =
          Status.error) ∧
     ((startRow (⟨Status.completed, 100, 7, some "/d/stale.mp4", none, some "t"⟩ : Row)).status =
          Status.completed →
        (startRow (⟨Status.completed, 100, 7, some "/d/stale.mp4", none, some "t"⟩ : Row)).file_path ≠
          none) ∧
     ((startRow (⟨Status.completed, 100, 7, some "/d/stale.mp4", none, some "t"⟩ : Row)).file_path ≠
          none →
        (startRow (⟨Status.completed, 100, 7, some "/d/stale.mp4", none, some "t"⟩ : Row)).status =
          Status.completed ∨
        (∃ e ∈ (⟨true, Except.ok ⟨none, "/d/e.mp4"⟩, false, none, false, [], some "boom",
            fun _ => none⟩ : RunCfg).events, isFinishedEv e = true) ∨
        (⟨Status.completed, 100, 7, some "/d/stale.mp4", none, some "t"⟩ : Row).file_path ≠ none)) :=
  ⟨by decide, row_invariant_amended _ _ _ (by decide)⟩

theorem linv_init (job : Nat → Nat) : LInv job initL := by
  intro j h
  simp [initL] at h

theorem linv_step (job : Nat → Nat) (s s2 : LState) (hs : LStep job s s2)
    (hinv : LInv job s) : LInv job s2 := by
  cases hs with
  | acquire p hl hp =>
    intro j hj
    dsimp only at hj
    obtain ⟨q, hq, _, _⟩ := hinv j hj
    rw [hl] at hq
    exact absurd hq (by simp)
  | setDownloading p hl hp =>
    intro j hj
    dsimp only at hj
    by_cases hjp : j = job p
    · exact ⟨p, hl, hjp.symm, Function.update_same p PC.running s.pc⟩
    · rw [Function.update_noteq hjp] at hj
      obtain ⟨q, hq, hjq, hpcq⟩ := hinv j hj
      have hqp : q = p := Option.some.inj (hq.symm.trans hl)
      subst hqp
      rw [hp] at hpcq
      exact absurd hpcq (by simp)
  | setTerminal p t hl hp ht =>
    intro j hj
    dsimp only at hj
    by_cases hjp : j = job p
    · subst hjp
      rw [Function.update_same] at hj
      rcases ht with rfl | rfl <;> exact absurd hj (by simp)
    · rw [Function.update_noteq hjp] at hj
      obtain ⟨q, hq, hjq, hpcq⟩ := hinv j hj
      have hqp : q = p := Option.some.inj (hq.symm.trans hl)
      subst hqp
      exact absurd hjq.symm hjp
  | release p hl hp =>
    intro j hj
    dsimp only at hj
    obtain ⟨q, hq, hjq, hpcq⟩ := hinv j hj
    have hqp : q = p := Option.some.inj (hq.symm.trans hl)
    subst hqp
    rw [hp] at hpcq
    exact absurd hpcq (by simp)
  | env j0 t ht =>
    intro j hj
    dsimp only at hj
    by_cases hjj : j = j0
    · subst hjj
      rw [Function.update_same] at hj
      exact absurd hj ht
    · rw [Function.update_noteq hjj] at hj
      exact hinv j hj

theorem linv_reach (job : Nat → Nat) (s : LState) (h : Reach job s) : LInv job s := by
  induction h with
  | refl => exact linv_init job
  | tail hab hbc ih => exact linv_step job _ _ hbc ih

/-- C1: lock serialization — in every state reachable under the interleaving
semantics of concurrently invoked runs (plus arbitrary non-downloading
environment writes, covering creation and retry), at most one job row holds
status 'downloading': two jobs observed as downloading at the same instant are
the same job.  In particular two concurrent runs for different job ids never
both have their rows at 'downloading' simultaneously. -/
theorem lock_serializes_downloading (job : Nat → Nat) (s : LState) (h : Reach job s)
    (j1 j2 : Nat) (h1 : s.store j1 = Status.downloading)
    (h2 : s.store j2 = Status.downloading) : j1 = j2 := by
  obtain ⟨p1, hl1, hj1, _⟩ := linv_reach job s h j1 h1
  obtain ⟨p2, hl2, hj2, _⟩ := linv_reach job s h j2 h2
  have hp : p1 = p2 := Option.some.inj (hl1.symm.trans hl2)
  rw [← hj1, ← hj2, hp]

theorem lock_serializes_downloading_witness :
    Reach (fun _ => 0)
      ⟨some 0, Function.update (Function.update (fun _ => PC.start) 0 PC.locked) 0 PC.running,
        Function.update (fun _ => Status.queued) 0 Status.downloading⟩ ∧
    (0 : Nat) = 0 := by
  have hstep1 : LStep (fun _ => 0) initL
      ⟨some 0, Function.update (fun _ => PC.start) 0 PC.locked, fun _ => Status.queued⟩ :=
    LStep.acquire initL 0 rfl rfl
  have hstep2 : LStep (fun _ => 0)
      ⟨some 0, Function.update (fun _ => PC.start) 0 PC.locked, fun _ => Status.queued⟩
      ⟨some 0, Function.update (Function.update (fun _ => PC.start) 0 PC.locked) 0 PC.running,
        Function.update (fun _ => Status.queued) 0 Status.downloading⟩ :=
    LStep.setDownloading _ 0 rfl rfl
  have hr : Reach (fun _ => 0)
      ⟨some 0, Function.update (Function.update (fun _ => PC.start) 0 PC.locked) 0 PC.running,
        Function.update (fun _ => Status.queued) 0 Status.downloading⟩ :=
    Relation.ReflTransGen.tail (Relation.ReflTransGen.tail Relation.ReflTransGen.refl hstep1)
      hstep2
  refine ⟨hr, ?_⟩
  exact lock_serializes_downloading (fun _ => 0) _ hr 0 0 rfl rfl

end YtWebui
